import Mathlib

/-!
Shallow embedding of futures-util/src/stream/disabled/select_all.rs.

A Rust Stream is modelled as a state type sigma together with a poll
function (StreamModel): one call to poll_next either suspends (Pending),
yields an item with the updated stream state, reports exhaustion
(Ready(None)), or fails with an error.  StreamFuture is the future
returned by StreamExt::next, resolving to (Option<Item>, Stream) or to
(Error, Stream).  FuturesUnordered is specialised to StreamFuture
elements, as select_all.rs uses it: an unordered collection, embedded as
a list; poll_next scans members in order, removes the first that
completes and returns its result, and otherwise leaves the (pending-
stepped) members in place.  SelectAll and select_all then follow the
source line by line, including the catch-all Ready(_) arm of
SelectAll::poll_next which maps both an empty set and an exhausted
member to Ready(None).
-/

namespace SelectAllSpec

/-- Result of one call to a stream's poll_next: Poll<Option<Item>, Error>
together with the stream's updated state. -/
inductive StreamPollResult (α ε σ : Type) where
  | pending (s : σ)
  | item (a : α) (s : σ)
  | done (s : σ)
  | error (e : ε) (s : σ)
deriving DecidableEq, Repr

/-- A Source: an asynchronous sequence, given by its state type and a
deterministic poll function over that state. -/
structure StreamModel (α ε σ : Type) where
  poll : σ → StreamPollResult α ε σ

/-- StreamFuture<St>: the future produced by StreamExt::next, holding the
stream whose next item it will pull.  (The Rust Option<St> field only
realises the take-on-completion ownership dance; inside the set the
stream is always present, so the embedding stores it directly.) -/
structure StreamFuture (σ : Type) where
  stream : σ
deriving DecidableEq, Repr

/-- StreamExt::next: wrap a stream into its pull-next-item future. -/
def StreamExt.next {σ : Type} (s : σ) : StreamFuture σ :=
  ⟨s⟩

/-- Result of polling a StreamFuture once: still pending, resolved to
(Option<Item>, Stream), or failed with (Error, Stream). -/
inductive StreamFuturePoll (α ε σ : Type) where
  | pending (f : StreamFuture σ)
  | ready (r : Option α × σ)
  | err (e : ε × σ)
deriving DecidableEq, Repr

/-- Future impl for StreamFuture: poll the inner stream; an item or
exhaustion resolves the future, handing the stream back alongside. -/
def StreamFuture.poll {α ε σ : Type} (M : StreamModel α ε σ)
    (f : StreamFuture σ) : StreamFuturePoll α ε σ :=
  match M.poll f.stream with
  | .pending s => .pending ⟨s⟩
  | .item a s => .ready (some a, s)
  | .done s => .ready (none, s)
  | .error e s => .err (e, s)

/-- FuturesUnordered<StreamFuture<St>>: the pending set, embedded as the
list of in-flight stream-futures. -/
structure FuturesUnordered (σ : Type) where
  futures : List (StreamFuture σ)
deriving DecidableEq, Repr

/-- FuturesUnordered::new. -/
def FuturesUnordered.new {σ : Type} : FuturesUnordered σ :=
  ⟨[]⟩

/-- FuturesUnordered::len. -/
def FuturesUnordered.len {σ : Type} (fu : FuturesUnordered σ) : Nat :=
  fu.futures.length

/-- FuturesUnordered::is_empty. -/
def FuturesUnordered.isEmpty {σ : Type} (fu : FuturesUnordered σ) : Bool :=
  fu.futures.isEmpty

/-- FuturesUnordered::push: purely structural insertion, no polling. -/
def FuturesUnordered.push {σ : Type} (fu : FuturesUnordered σ)
    (f : StreamFuture σ) : FuturesUnordered σ :=
  ⟨fu.futures ++ [f]⟩

/-- Result of FuturesUnordered::poll_next: Async::Pending with the
stepped set, Async::Ready(None) on an empty set, Async::Ready(Some r)
with the completed future removed, or Err((e, stream)) with the failed
future removed. -/
inductive FUPoll (α ε σ : Type) where
  | pending (fu : FuturesUnordered σ)
  | readyNone
  | readySome (r : Option α × σ) (fu : FuturesUnordered σ)
  | err (e : ε × σ) (fu : FuturesUnordered σ)
deriving DecidableEq, Repr

/-- One poll of the set, scanning members in order: the first future
that completes is removed and its result returned (later members are
left untouched, as they were not woken); members polled before it that
suspended are kept with their stepped state; an empty list reports
Ready(None); if every member suspends the whole call is Pending. -/
def FuturesUnordered.pollList {α ε σ : Type} (M : StreamModel α ε σ) :
    List (StreamFuture σ) → FUPoll α ε σ
  | [] => .readyNone
  | f :: rest =>
    match StreamFuture.poll M f with
    | .ready r => .readySome r ⟨rest⟩
    | .err e => .err e ⟨rest⟩
    | .pending f' =>
      match FuturesUnordered.pollList M rest with
      | .readyNone => .pending ⟨[f']⟩
      | .pending fu => .pending ⟨f' :: fu.futures⟩
      | .readySome r fu => .readySome r ⟨f' :: fu.futures⟩
      | .err e fu => .err e ⟨f' :: fu.futures⟩

/-- FuturesUnordered::poll_next. -/
def FuturesUnordered.pollNext {α ε σ : Type} (M : StreamModel α ε σ)
    (fu : FuturesUnordered σ) : FUPoll α ε σ :=
  FuturesUnordered.pollList M fu.futures

/-- SelectAll<St>: the multiplexer, owning one FuturesUnordered of
StreamFuture units. -/
structure SelectAll (σ : Type) where
  inner : FuturesUnordered σ
deriving DecidableEq, Repr

/-- SelectAll::new. -/
def SelectAll.new {σ : Type} : SelectAll σ :=
  ⟨FuturesUnordered.new⟩

/-- SelectAll::len. -/
def SelectAll.len {σ : Type} (sa : SelectAll σ) : Nat :=
  sa.inner.len

/-- SelectAll::is_empty. -/
def SelectAll.isEmpty {σ : Type} (sa : SelectAll σ) : Bool :=
  sa.inner.isEmpty

/-- SelectAll::push: self.inner.push(stream.next()). -/
def SelectAll.push {σ : Type} (sa : SelectAll σ) (st : σ) : SelectAll σ :=
  ⟨sa.inner.push (StreamExt.next st)⟩

/-- Result of SelectAll::poll_next: Ok(Pending), Ok(Ready(Some(item))),
Ok(Ready(None)) or Err(e), each with the multiplexer's updated state. -/
inductive SAPoll (α ε σ : Type) where
  | pending (sa : SelectAll σ)
  | itemReady (a : α) (sa : SelectAll σ)
  | completed (sa : SelectAll σ)
  | failed (e : ε) (sa : SelectAll σ)
deriving DecidableEq, Repr

/-- SelectAll::poll_next, matching the source's arms: the map_err/? on
the inner poll drops the failed stream and surfaces the error; Pending
propagates; Ready(Some((Some(item), remaining))) re-pushes remaining and
surfaces the item; the catch-all Ready(_) arm returns Ready(None) both
for an empty set and for a member that resolved to (None, stream). -/
def SelectAll.pollNext {α ε σ : Type} (M : StreamModel α ε σ)
    (sa : SelectAll σ) : SAPoll α ε σ :=
  match sa.inner.pollNext M with
  | .err (e, _) fu => .failed e ⟨fu⟩
  | .pending fu => .pending ⟨fu⟩
  | .readySome (some a, remaining) fu =>
      .itemReady a ((SelectAll.mk fu).push remaining)
  | .readyNone => .completed sa
  | .readySome (none, _) fu => .completed ⟨fu⟩

/-- select_all: fold the collection into a fresh SelectAll by pushing
each stream in iteration order. -/
def select_all {σ : Type} (streams : List σ) : SelectAll σ :=
  streams.foldl SelectAll.push SelectAll.new

/-- A concrete scripted stream for witnesses: the state is the list of
remaining steps; an empty script is exhaustion. -/
inductive TestStep (α ε : Type) where
  | yield (a : α)
  | wait
  | fail (e : ε)
deriving DecidableEq, Repr

/-- The poll function of scripted streams. -/
def testModel (α ε : Type) : StreamModel α ε (List (TestStep α ε)) :=
  ⟨fun s =>
    match s with
    | [] => .done []
    | .yield a :: r => .item a r
    | .wait :: r => .pending r
    | .fail e :: r => .error e r⟩

/-! Helper lemmas about one scan of the pending set. -/

/-- One pending step of a single stream-future under model M. -/
def PendStep {α ε σ : Type} (M : StreamModel α ε σ)
    (f f' : StreamFuture σ) : Prop :=
  StreamFuture.poll M f = .pending f'

/-- A scan that returns readySome splits the list around the completed
future: the members before it each stepped to pending, the completed one
resolved to the returned result, and the remaining set keeps the stepped
members followed by the untouched tail. -/
lemma pollList_readySome_decomp {α ε σ : Type} (M : StreamModel α ε σ) :
    ∀ (l : List (StreamFuture σ)) (r : Option α × σ) (fu : FuturesUnordered σ),
      FuturesUnordered.pollList M l = .readySome r fu →
      ∃ pre f post pre', l = pre ++ f :: post ∧
        List.Forall₂ (PendStep M) pre pre' ∧
        StreamFuture.poll M f = .ready r ∧
        fu.futures = pre' ++ post := by
  intro l
  induction l with
  | nil =>
    intro r fu h
    simp [FuturesUnordered.pollList] at h
  | cons f rest ih =>
    intro r fu h
    cases hp : StreamFuture.poll M f with
    | ready r' =>
      simp only [FuturesUnordered.pollList, hp] at h
      cases h
      exact ⟨[], f, rest, [], by simp, List.Forall₂.nil, hp, rfl⟩
    | err e =>
      simp only [FuturesUnordered.pollList, hp] at h
      cases h
    | pending f' =>
      simp only [FuturesUnordered.pollList, hp] at h
      cases hq : FuturesUnordered.pollList M rest with
      | readyNone => rw [hq] at h; simp at h
      | pending fu0 => rw [hq] at h; simp at h
      | err e fu0 => rw [hq] at h; simp at h
      | readySome r0 fu0 =>
        rw [hq] at h
        cases h
        obtain ⟨pre, g, post, pre', hl, hfa, hg, hfu⟩ := ih r fu0 hq
        exact ⟨f :: pre, g, post, f' :: pre', by simp [hl],
          List.Forall₂.cons hp hfa, hg, by simp [hfu]⟩

/-- A scan that returns err splits the list the same way around the
failed future. -/
lemma pollList_err_decomp {α ε σ : Type} (M : StreamModel α ε σ) :
    ∀ (l : List (StreamFuture σ)) (e : ε × σ) (fu : FuturesUnordered σ),
      FuturesUnordered.pollList M l = .err e fu →
      ∃ pre f post pre', l = pre ++ f :: post ∧
        List.Forall₂ (PendStep M) pre pre' ∧
        StreamFuture.poll M f = .err e ∧
        fu.futures = pre' ++ post := by
  intro l
  induction l with
  | nil =>
    intro e fu h
    simp [FuturesUnordered.pollList] at h
  | cons f rest ih =>
    intro e fu h
    cases hp : StreamFuture.poll M f with
    | ready r' =>
      simp only [FuturesUnordered.pollList, hp] at h
      cases h
    | err e' =>
      simp only [FuturesUnordered.pollList, hp] at h
      cases h
      exact ⟨[], f, rest, [], by simp, List.Forall₂.nil, hp, rfl⟩
    | pending f' =>
      simp only [FuturesUnordered.pollList, hp] at h
      cases hq : FuturesUnordered.pollList M rest with
      | readyNone => rw [hq] at h; simp at h
      | pending fu0 => rw [hq] at h; simp at h
      | readySome r0 fu0 => rw [hq] at h; simp at h
      | err e0 fu0 =>
        rw [hq] at h
        cases h
        obtain ⟨pre, g, post, pre', hl, hfa, hg, hfu⟩ := ih e fu0 hq
        exact ⟨f :: pre, g, post, f' :: pre', by simp [hl],
          List.Forall₂.cons hp hfa, hg, by simp [hfu]⟩

/-- The remaining set after a readySome scan has exactly one member
fewer than the scanned list. -/
lemma pollList_readySome_len {α ε σ : Type} (M : StreamModel α ε σ)
    (l : List (StreamFuture σ)) (r : Option α × σ) (fu : FuturesUnordered σ)
    (h : FuturesUnordered.pollList M l = .readySome r fu) :
    fu.futures.length + 1 = l.length := by
  obtain ⟨pre, f, post, pre', hl, hfa, _, hfu⟩ :=
    pollList_readySome_decomp M l r fu h
  subst hl
  simp [hfu, List.Forall₂.length_eq hfa]
  omega

/-- The remaining set after an err scan has exactly one member fewer
than the scanned list. -/
lemma pollList_err_len {α ε σ : Type} (M : StreamModel α ε σ)
    (l : List (StreamFuture σ)) (e : ε × σ) (fu : FuturesUnordered σ)
    (h : FuturesUnordered.pollList M l = .err e fu) :
    fu.futures.length + 1 = l.length := by
  obtain ⟨pre, f, post, pre', hl, hfa, _, hfu⟩ :=
    pollList_err_decomp M l e fu h
  subst hl
  simp [hfu, List.Forall₂.length_eq hfa]
  omega

/-- Folding push over a list appends the fresh pull-next units in
iteration order. -/
lemma foldl_push_futures {σ : Type} (streams : List σ) (sa : SelectAll σ) :
    (streams.foldl SelectAll.push sa).inner.futures =
      sa.inner.futures ++ streams.map StreamExt.next := by
  induction streams generalizing sa with
  | nil => simp
  | cons s rest ih =>
    simp [List.foldl_cons, ih, SelectAll.push, FuturesUnordered.push]

/-- Unfolding pollNext when the inner poll suspends. -/
lemma pollNext_of_pending {α ε σ : Type} (M : StreamModel α ε σ)
    (sa : SelectAll σ) (fu : FuturesUnordered σ)
    (hq : sa.inner.pollNext M = .pending fu) :
    SelectAll.pollNext M sa = .pending ⟨fu⟩ := by
  unfold SelectAll.pollNext
  rw [hq]

/-- Unfolding pollNext when the inner set is empty. -/
lemma pollNext_of_readyNone {α ε σ : Type} (M : StreamModel α ε σ)
    (sa : SelectAll σ)
    (hq : sa.inner.pollNext M = .readyNone) :
    SelectAll.pollNext M sa = .completed sa := by
  unfold SelectAll.pollNext
  rw [hq]

/-- Unfolding pollNext when a member yields an item with a remainder. -/
lemma pollNext_of_item {α ε σ : Type} (M : StreamModel α ε σ)
    (sa : SelectAll σ) (a : α) (s : σ) (fu : FuturesUnordered σ)
    (hq : sa.inner.pollNext M = .readySome (some a, s) fu) :
    SelectAll.pollNext M sa = .itemReady a ((SelectAll.mk fu).push s) := by
  unfold SelectAll.pollNext
  rw [hq]

/-- Unfolding pollNext when a member resolves to exhaustion. -/
lemma pollNext_of_exhausted {α ε σ : Type} (M : StreamModel α ε σ)
    (sa : SelectAll σ) (s : σ) (fu : FuturesUnordered σ)
    (hq : sa.inner.pollNext M = .readySome (none, s) fu) :
    SelectAll.pollNext M sa = .completed ⟨fu⟩ := by
  unfold SelectAll.pollNext
  rw [hq]

/-- Unfolding pollNext when a member fails. -/
lemma pollNext_of_err {α ε σ : Type} (M : StreamModel α ε σ)
    (sa : SelectAll σ) (e : ε) (s : σ) (fu : FuturesUnordered σ)
    (hq : sa.inner.pollNext M = .err (e, s) fu) :
    SelectAll.pollNext M sa = .failed e ⟨fu⟩ := by
  unfold SelectAll.pollNext
  rw [hq]

/-! Claim theorems. -/

/-- C1: code evaluation at the failing input.  With two member streams
where the first unit resumed reports exhaustion and the second has an
item ready, SelectAll::poll_next returns Ready(None) (Completed) to the
caller instead of continuing to poll: the catch-all Ready(_) arm treats
one member's exhaustion like an empty set, so exhaustion of one member
is visible to the caller even though a live member remains (len 1). -/
theorem c1_exhaustion_returns_completed_to_caller :
    SelectAll.pollNext (testModel Nat Nat)
        (select_all [([] : List (TestStep Nat Nat)), [TestStep.yield 1]]) =
      .completed ⟨⟨[⟨[TestStep.yield 1]⟩]⟩⟩ ∧
    SelectAll.len
        (⟨⟨[⟨[TestStep.yield 1]⟩]⟩⟩ : SelectAll (List (TestStep Nat Nat))) = 1 :=
  ⟨rfl, rfl⟩

/-- C2: code evaluation at the failing input.  poll_next returns
Completed on a reachable state whose member count is still nonzero: the
first member exhausts, the still-pending second member remains in the
set, yet the catch-all arm reports Ready(None). -/
theorem c2_completed_with_nonzero_member_count :
    ∃ sa' : SelectAll (List (TestStep Nat Nat)),
      SelectAll.pollNext (testModel Nat Nat)
          (select_all [([] : List (TestStep Nat Nat)), [TestStep.wait]]) =
        .completed sa' ∧ sa'.len ≠ 0 :=
  ⟨⟨⟨[⟨[TestStep.wait]⟩]⟩⟩, rfl, by decide⟩

/-- C4: new() has zero members, and polling any SelectAll with zero
members immediately returns Completed — no item, no Pending — with the
state unchanged. -/
theorem c4_new_is_empty_and_empty_poll_completes {α ε σ : Type}
    (M : StreamModel α ε σ) (sa : SelectAll σ) (h : sa.len = 0) :
    (SelectAll.new : SelectAll σ).len = 0 ∧
    SelectAll.pollNext M sa = .completed sa := by
  refine ⟨rfl, ?_⟩
  obtain ⟨⟨l⟩⟩ := sa
  simp [SelectAll.len, FuturesUnordered.len] at h
  subst h
  rfl

/-- Witness for C4 at a concrete model and the empty multiplexer. -/
theorem c4_witness :
    (SelectAll.new : SelectAll (List (TestStep Nat Nat))).len = 0 ∧
    SelectAll.pollNext (testModel Nat Nat)
        (SelectAll.new : SelectAll (List (TestStep Nat Nat))) =
      .completed SelectAll.new :=
  c4_new_is_empty_and_empty_poll_completes (testModel Nat Nat) SelectAll.new rfl

/-- C6: push is purely structural — it appends exactly the fresh,
never-polled pull-next unit wrapping the source (push takes no poll
model at all, so it cannot execute the source), the member count grows
by exactly one, and every existing member is left in place unmodified. -/
theorem c6_push_is_purely_structural {σ : Type} (sa : SelectAll σ) (st : σ) :
    (sa.push st).len = sa.len + 1 ∧
    (sa.push st).inner.futures = sa.inner.futures ++ [StreamExt.next st] :=
  ⟨by simp [SelectAll.push, SelectAll.len, FuturesUnordered.push,
      FuturesUnordered.len], rfl⟩

/-- C7: select_all is exactly the fold of push over the collection in
iteration order starting from new(); consequently the resulting set
holds precisely the fresh (never-polled) pull-next units of the
collection's elements in iteration order, and its len equals the
collection's length. -/
theorem c7_select_all_pushes_each_in_order {σ : Type} (streams : List σ) :
    select_all streams = streams.foldl SelectAll.push SelectAll.new ∧
    (select_all streams).inner.futures = streams.map StreamExt.next ∧
    (select_all streams).len = streams.length := by
  refine ⟨rfl, ?_, ?_⟩
  · rw [select_all, foldl_push_futures]
    rfl
  · rw [SelectAll.len, FuturesUnordered.len, select_all, foldl_push_futures]
    simp [SelectAll.new, FuturesUnordered.new]

/-- C8: a single always-ready source scripted to yield a then b then
exhaust produces exactly ItemReady(a), ItemReady(b), Completed on three
successive polls, with no intervening Pending, ending with zero
members. -/
theorem c8_single_source_yields_a_b_completed {α ε : Type} (a b : α) :
    SelectAll.pollNext (testModel α ε)
        (select_all [[TestStep.yield a, TestStep.yield b]]) =
      .itemReady a ⟨⟨[⟨[TestStep.yield b]⟩]⟩⟩ ∧
    SelectAll.pollNext (testModel α ε)
        (⟨⟨[⟨[TestStep.yield b]⟩]⟩⟩ : SelectAll (List (TestStep α ε))) =
      .itemReady b ⟨⟨[⟨[]⟩]⟩⟩ ∧
    SelectAll.pollNext (testModel α ε)
        (⟨⟨[⟨[]⟩]⟩⟩ : SelectAll (List (TestStep α ε))) = .completed ⟨⟨[]⟩⟩ ∧
    SelectAll.len (⟨⟨[]⟩⟩ : SelectAll (List (TestStep α ε))) = 0 :=
  ⟨rfl, rfl, rfl, rfl⟩

/-- C10: Completed is not latched.  Polling the empty multiplexer
returns Completed; a subsequent push makes len 1; the next poll polls
the new source and returns ItemReady rather than Completed. -/
theorem c10_push_after_completed_revives {α ε : Type} (a : α) :
    SelectAll.pollNext (testModel α ε)
        (SelectAll.new : SelectAll (List (TestStep α ε))) =
      .completed SelectAll.new ∧
    ((SelectAll.new : SelectAll (List (TestStep α ε))).push
        [TestStep.yield a]).len = 1 ∧
    SelectAll.pollNext (testModel α ε)
        ((SelectAll.new : SelectAll (List (TestStep α ε))).push
          [TestStep.yield a]) =
      .itemReady a ⟨⟨[⟨[]⟩]⟩⟩ :=
  ⟨rfl, rfl, rfl⟩

/-- C3: whenever poll_next reports ItemReady(item), the state it hands
back is exactly the remaining set with the remainder's fresh pull-next
unit already re-pushed: the returned state contains that unit and its
member count already includes it.  In the pure embedding, the push
happening strictly before the return is precisely the fact that the
returned state reflects it. -/
theorem c3_remainder_repushed_before_item_returned {α ε σ : Type}
    (M : StreamModel α ε σ) (sa sa' : SelectAll σ) (a : α)
    (h : SelectAll.pollNext M sa = .itemReady a sa') :
    ∃ fu remaining,
      sa.inner.pollNext M = .readySome (some a, remaining) fu ∧
      sa' = (SelectAll.mk fu).push remaining ∧
      StreamExt.next remaining ∈ sa'.inner.futures ∧
      sa'.len = fu.len + 1 := by
  cases hq : sa.inner.pollNext M with
  | pending fu => rw [pollNext_of_pending M sa fu hq] at h; cases h
  | readyNone => rw [pollNext_of_readyNone M sa hq] at h; cases h
  | err e fu =>
    obtain ⟨e0, s0⟩ := e
    rw [pollNext_of_err M sa e0 s0 fu hq] at h
    cases h
  | readySome r fu =>
    obtain ⟨o, s⟩ := r
    cases o with
    | none =>
      rw [pollNext_of_exhausted M sa s fu hq] at h
      cases h
    | some a0 =>
      rw [pollNext_of_item M sa a0 s fu hq] at h
      cases h
      refine ⟨fu, s, rfl, rfl, ?_, ?_⟩
      · simp [SelectAll.push, FuturesUnordered.push]
      · simp [SelectAll.len, SelectAll.push, FuturesUnordered.push,
          FuturesUnordered.len]

/-- Witness for C3 at a concrete one-stream multiplexer yielding 1. -/
theorem c3_witness :
    ∃ fu remaining,
      (select_all [[TestStep.yield 1]] :
          SelectAll (List (TestStep Nat Nat))).inner.pollNext
        (testModel Nat Nat) = .readySome (some 1, remaining) fu ∧
      (⟨⟨[⟨[]⟩]⟩⟩ : SelectAll (List (TestStep Nat Nat))) =
        (SelectAll.mk fu).push remaining ∧
      StreamExt.next remaining ∈
        (⟨⟨[⟨[]⟩]⟩⟩ :
          SelectAll (List (TestStep Nat Nat))).inner.futures ∧
      (⟨⟨[⟨[]⟩]⟩⟩ : SelectAll (List (TestStep Nat Nat))).len = fu.len + 1 :=
  c3_remainder_repushed_before_item_returned (testModel Nat Nat)
    (select_all [[TestStep.yield 1]]) ⟨⟨[⟨[]⟩]⟩⟩ 1 rfl

/-- C5: when poll_next returns Failed(e), the failing member was removed
on that same poll — the member count drops by exactly one, the failing
stream is not re-pushed (the new set is just the stepped members before
it followed by the untouched members after it), and every other member
remains tracked. -/
theorem c5_failure_removes_exactly_the_failing_member {α ε σ : Type}
    (M : StreamModel α ε σ) (sa sa' : SelectAll σ) (e : ε)
    (h : SelectAll.pollNext M sa = .failed e sa') :
    sa'.len + 1 = sa.len ∧
    ∃ pre f post pre' s,
      sa.inner.futures = pre ++ f :: post ∧
      List.Forall₂ (PendStep M) pre pre' ∧
      StreamFuture.poll M f = .err (e, s) ∧
      sa'.inner.futures = pre' ++ post := by
  cases hq : sa.inner.pollNext M with
  | pending fu => rw [pollNext_of_pending M sa fu hq] at h; cases h
  | readyNone => rw [pollNext_of_readyNone M sa hq] at h; cases h
  | readySome r fu =>
    obtain ⟨o, s⟩ := r
    cases o with
    | none =>
      rw [pollNext_of_exhausted M sa s fu hq] at h
      cases h
    | some a0 =>
      rw [pollNext_of_item M sa a0 s fu hq] at h
      cases h
  | err ep fu =>
    obtain ⟨e0, s0⟩ := ep
    rw [pollNext_of_err M sa e0 s0 fu hq] at h
    obtain ⟨pre, f, post, pre', hl, hfa, hf, hfu⟩ :=
      pollList_err_decomp M sa.inner.futures (e0, s0) fu hq
    have hlen := pollList_err_len M sa.inner.futures (e0, s0) fu hq
    cases h
    refine ⟨?_, pre, f, post, pre', s0, hl, hfa, hf, hfu⟩
    simpa [SelectAll.len, FuturesUnordered.len] using hlen

/-- Witness for C5: two members, the first fails with 5, the second is a
live stream that stays tracked. -/
theorem c5_witness :
    (⟨⟨[⟨[TestStep.yield 7]⟩]⟩⟩ :
        SelectAll (List (TestStep Nat Nat))).len + 1 =
      (select_all [[TestStep.fail 5], [TestStep.yield 7]] :
        SelectAll (List (TestStep Nat Nat))).len ∧
    ∃ pre f post pre' s,
      (select_all [[TestStep.fail 5], [TestStep.yield 7]] :
          SelectAll (List (TestStep Nat Nat))).inner.futures =
        pre ++ f :: post ∧
      List.Forall₂ (PendStep (testModel Nat Nat)) pre pre' ∧
      StreamFuture.poll (testModel Nat Nat) f = .err (5, s) ∧
      (⟨⟨[⟨[TestStep.yield 7]⟩]⟩⟩ :
          SelectAll (List (TestStep Nat Nat))).inner.futures =
        pre' ++ post :=
  c5_failure_removes_exactly_the_failing_member (testModel Nat Nat)
    (select_all [[TestStep.fail 5], [TestStep.yield 7]])
    ⟨⟨[⟨[TestStep.yield 7]⟩]⟩⟩ 5 rfl

/-- C9: yielding an item never changes the member count — the completed
unit removed by the pending set is exactly balanced by the re-pushed
remainder. -/
theorem c9_item_ready_preserves_len {α ε σ : Type} (M : StreamModel α ε σ)
    (sa sa' : SelectAll σ) (a : α)
    (h : SelectAll.pollNext M sa = .itemReady a sa') :
    sa'.len = sa.len := by
  cases hq : sa.inner.pollNext M with
  | pending fu => rw [pollNext_of_pending M sa fu hq] at h; cases h
  | readyNone => rw [pollNext_of_readyNone M sa hq] at h; cases h
  | err ep fu =>
    obtain ⟨e0, s0⟩ := ep
    rw [pollNext_of_err M sa e0 s0 fu hq] at h
    cases h
  | readySome r fu =>
    obtain ⟨o, s⟩ := r
    cases o with
    | none =>
      rw [pollNext_of_exhausted M sa s fu hq] at h
      cases h
    | some a0 =>
      rw [pollNext_of_item M sa a0 s fu hq] at h
      have hlen := pollList_readySome_len M sa.inner.futures (some a0, s) fu hq
      cases h
      simp [SelectAll.len, SelectAll.push, FuturesUnordered.push,
        FuturesUnordered.len]
      omega

/-- Witness for C9 at a concrete one-stream multiplexer. -/
theorem c9_witness :
    (⟨⟨[⟨[]⟩]⟩⟩ : SelectAll (List (TestStep Nat Nat))).len =
      (select_all [[TestStep.yield 3]] :
        SelectAll (List (TestStep Nat Nat))).len :=
  c9_item_ready_preserves_len (testModel Nat Nat)
    (select_all [[TestStep.yield 3]]) ⟨⟨[⟨[]⟩]⟩⟩ 3 rfl

end SelectAllSpec
